import Mathlib

/-!
# Verification of the peon-ping hook core

A shallow embedding of `src/resources/peon-ping-hook.js`: the event
classifier, pattern matcher, spam counter, anti-repeat selectors, path
sanitizer and the orchestrating `main` function, together with theorems
checking the natural-language specification against this embedding.

External collaborators (the file system, child processes, the JS `RegExp`
engine, `Math.random`) are modelled as explicit parameters: an `Env`
record carrying the resolved pack context and the playback outcome, a
regex oracle `String → Option (String → Bool)` (where `none` models a
pattern whose compilation throws), and natural-number indices standing
for the value of `Math.floor(Math.random() * pool.length)`.
-/

namespace PeonPing

/-- A JS payload value as delivered in the hook input: absent (`undefined`
or `null`), a string, or a structured (object) value represented by its
`JSON.stringify` serialization. -/
inductive Payload
  | absent
  | text (s : String)
  | structured (json : String)
deriving DecidableEq, Repr

/-- JS truthiness test for a payload: `undefined`/`null` and the empty
string are falsy; objects are always truthy. -/
def Payload.falsy : Payload → Bool
  | .absent => true
  | .text s => s == ""
  | .structured _ => false

/-- Embeds `typeof value === "string" ? value : JSON.stringify(value)`
from `containsPattern`. -/
def Payload.joined : Payload → String
  | .absent => ""
  | .text s => s
  | .structured j => j

/-- JS `a || b` for a possibly-absent string `a` (absent and `""` are falsy). -/
def jsStrOr (a : Option String) (b : String) : String :=
  match a with
  | some s => if s = "" then b else s
  | none => b

/-- JS `Number(x || d)` for a numeric config field `x` (`0` is falsy). -/
def jsNumOr (x d : ℚ) : ℚ :=
  if x = 0 then d else x

/-- Embeds `containsPattern(value, patterns)` from the hook script, parameterised
by the regex engine `rex`; `rex p = none` models `new RegExp(p, "i")`
throwing, which the source catches and treats as a non-match. -/
def containsPattern (rex : String → Option (String → Bool)) (value : Payload)
    (patterns : List String) : Bool :=
  if value.falsy then false
  else
    patterns.any fun pattern =>
      match rex pattern with
      | some test => test value.joined
      | none => false

/-- Embeds `String(input).replace(/\\/g, "/")`: replace every backslash by a slash. -/
def jsSlashes (s : List Char) : List Char :=
  s.map fun c => if c = '\\' then '/' else c

/-- Split a character list on `'/'`, keeping empty segments, as
`"a//b".split("/")` would. -/
def splitSlash : List Char → List Char → List (List Char)
  | [], acc => [acc.reverse]
  | c :: rest, acc =>
    if c = '/' then acc.reverse :: splitSlash rest [] else splitSlash rest (c :: acc)

/-- One step of Node's `normalizeString` segment processing (the
accumulator holds the kept segments in reverse order): empty and `"."`
segments are dropped; `".."` pops the previous segment unless it is
itself `".."`, and is kept only when `allowAboveRoot` (i.e. for relative
paths). -/
def normStep (allowAboveRoot : Bool) (acc : List (List Char)) (seg : List Char) :
    List (List Char) :=
  if seg = [] ∨ seg = ['.'] then acc
  else if seg = ['.', '.'] then
    match acc with
    | [] => if allowAboveRoot then [['.', '.']] else []
    | lastSeg :: rest => if lastSeg = ['.', '.'] then ['.', '.'] :: acc else rest
  else seg :: acc

/-- Join segments with `'/'`. -/
def joinSegs : List (List Char) → List Char
  | [] => []
  | [s] => s
  | s :: rest => s ++ '/' :: joinSegs rest

/-- Node's `path.posix.normalize` on character lists. -/
def posixNormalize (p : List Char) : List Char :=
  if p = [] then ['.']
  else
    let isAbs : Bool := p.head? = some '/'
    let trailing : Bool := p.getLast? = some '/'
    let body := joinSegs ((splitSlash p []).foldl (normStep (!isAbs)) []).reverse
    if body = [] then
      if isAbs then ['/'] else if trailing then ['.', '/'] else ['.']
    else
      let body2 := if trailing then body ++ ['/'] else body
      if isAbs then '/' :: body2 else body2

/-- Embeds the `.replace(/^\/+/, "")` step: drop every leading slash. -/
def dropLeadingSlashes : List Char → List Char
  | [] => []
  | c :: rest => if c = '/' then dropLeadingSlashes rest else c :: rest

/-- Embeds `sanitizeRelativePath` from the hook script: backslashes become
slashes, the result is POSIX-normalized and stripped of leading slashes;
an empty result or one starting with the two characters `".."` (the JS
`startsWith("..")` test) is rejected. -/
def sanitizeRelativePath (input : String) : Option String :=
  let normalized := dropLeadingSlashes (posixNormalize (jsSlashes input.data))
  if normalized = [] ∨ normalized.take 2 = ['.', '.'] then none
  else some (String.mk normalized)

/-- Embeds `path.join(parts...)`: drop empty parts, join with a slash, normalize;
`"."` when nothing remains. -/
def pathJoin (parts : List String) : String :=
  let kept := parts.filter fun p => p != ""
  if kept = [] then "."
  else String.mk (posixNormalize (String.intercalate "/" kept).data)

/-- The full sound path `path.join(packContext.packDir, ...picked.file.split("/"))`. -/
def joinPackPath (packDir rel : String) : String :=
  pathJoin (packDir :: (rel.splitOn "/"))

/-- String-keyed, string-valued JS object (association list). -/
abbrev StrMap := List (String × String)

def lookupStr (m : StrMap) (k : String) : Option String :=
  (m.find? fun p => p.1 == k).map Prod.snd

/-- JS property assignment `m[k] = v`. -/
def setStr (m : StrMap) (k v : String) : StrMap :=
  (k, v) :: m.filter fun p => p.1 != k

/-- Embeds the lookup `m[k] || ""`. -/
def jsGetStr (m : StrMap) (k : String) : String :=
  (lookupStr m k).getD ""

def lookupBool (m : List (String × Bool)) (k : String) : Option Bool :=
  (m.find? fun p => p.1 == k).map Prod.snd

/-- Persisted state (`.peon-ping-state.json`) after the read-repair in
`main`: the two last-played maps and the prompt timestamps (seconds,
modelled as rationals). -/
structure State where
  lastPlayedLabel : StrMap
  lastPlayedFile : StrMap
  promptTimestamps : List ℚ
deriving DecidableEq, Repr

/-- Effective configuration after `main` merges the file contents over
`DEFAULT_CONFIG`.  `dangerousCommandPatterns = none` models a value that
fails the `Array.isArray` test. -/
structure Config where
  enabled : Bool
  bell : Bool
  desktopNotifications : Bool
  volume : ℚ
  spamThreshold : ℚ
  spamWindowSeconds : ℚ
  categories : List (String × Bool)
  labels : List (String × List String)
  dangerousCommandPatterns : Option (List String)
deriving DecidableEq, Repr

/-- The built-in `DEFAULT_CONFIG.dangerousCommandPatterns` list. -/
def defaultDangerousCommandPatterns : List String :=
  ["rm\\s+-rf\\s+/", "\\bdrop\\s+table\\b", "\\bmkfs\\b", "\\bshutdown\\b",
   "\\breboot\\b", "\\bformat\\s+c:\\\\"]

/-- The destructive-command pattern list actually used by `main`:
the configured list when it is an array, the built-in default otherwise. -/
def dangerousPatterns (cfg : Config) : List String :=
  cfg.dangerousCommandPatterns.getD defaultDangerousCommandPatterns

/-- The rate/quota pattern literals from the PostToolUse branch of `main`. -/
def rateLimitPatterns : List String :=
  ["rate\\s*limit", "too\\s*many\\s*requests", "quota"]

/-- The generic error pattern literals from the PostToolUse branch of `main`. -/
def errorPatterns : List String :=
  ["error", "failed", "exception", "traceback"]

/-- Label list `(config.labels && config.labels[category]) || []`. -/
def labelsFor (cfg : Config) (category : String) : List String :=
  ((cfg.labels.find? fun p => p.1 == category).map Prod.snd).getD []

/-- Embeds `pickLabel(category, config, state)` with `idx` standing for
`Math.floor(Math.random() * candidates.length)`.  Returns the chosen
label and the updated state.  The JS fallback
`candidates[i] || labels[0]` is modelled exactly: an out-of-range index
or an empty-string candidate falls back to the first label. -/
def pickLabel (category : String) (cfg : Config) (state : State) (idx : Nat) :
    String × State :=
  let labels := labelsFor cfg category
  if labels.length = 0 then (category, state)
  else
    let last := jsGetStr state.lastPlayedLabel category
    let candidates := if labels.length ≤ 1 then labels else labels.filter fun l => l != last
    let next := jsStrOr (candidates.get? idx) labels.headI
    (next, { state with lastPlayedLabel := setStr state.lastPlayedLabel category next })

/-- Embeds `checkSpam(state, config)` with the current time passed explicitly.
Keeps the timestamps at or after `now - windowSeconds`, appends `now`,
and reports whether the retained count reaches the threshold. -/
def checkSpam (state : State) (cfg : Config) (now : ℚ) : Bool × State :=
  let windowSeconds := jsNumOr cfg.spamWindowSeconds 10
  let threshold := jsNumOr cfg.spamThreshold 3
  let cutoff := now - windowSeconds
  let retained := state.promptTimestamps.filter fun stamp => cutoff ≤ stamp
  let updated := retained ++ [now]
  (decide (threshold ≤ (updated.length : ℚ)),
   { state with promptTimestamps := updated })

/-- A sound entry of a pack manifest; `file = none` models a missing or
non-string `file` field (or a null entry). -/
structure Sound where
  file : Option String
  label : Option String
deriving DecidableEq, Repr

/-- The pack manifest: a `categories` mapping from category name to the
category's sound list (`[]` when `sounds` is absent or not an array). -/
structure Manifest where
  categories : List (String × List Sound)
deriving DecidableEq, Repr

def manifestSounds (m : Manifest) (category : String) : List Sound :=
  ((m.categories.find? fun p => p.1 == category).map Prod.snd).getD []

/-- A sanitized sound candidate as built inside `pickSound`. -/
structure SelSound where
  file : String
  label : String
deriving DecidableEq, Repr, Inhabited

/-- One iteration of the candidate loop in `pickSound`: skip entries
with a missing or non-string `file` field and entries whose path the
sanitizer rejects; keep the sanitized path with the label (or `""`). -/
def sanitizeSound (sound : Sound) : Option SelSound :=
  match sound.file with
  | none => none
  | some f =>
    match sanitizeRelativePath f with
    | none => none
    | some rel => some { file := rel, label := sound.label.getD "" }

/-- The candidate list built by the loop in `pickSound`. -/
def soundCandidates (m : Manifest) (category : String) : List SelSound :=
  (manifestSounds m category).filterMap sanitizeSound

/-- Embeds `pickSound(category, manifest, state)` with `idx` standing for
`Math.floor(Math.random() * pool.length)`.  The JS fallback
`pool[i] || candidates[0]` only fires on an out-of-range index, because
the pool entries are objects and hence truthy. -/
def pickSound (category : String) (manifest : Manifest) (state : State) (idx : Nat) :
    Option SelSound × State :=
  let candidates := soundCandidates manifest category
  if candidates.length = 0 then (none, state)
  else
    let last := jsGetStr state.lastPlayedFile category
    let pool := if candidates.length ≤ 1 then candidates
                else candidates.filter fun entry => entry.file != last
    let selected := (pool.get? idx).getD candidates.headI
    (some selected,
     { state with lastPlayedFile := setStr state.lastPlayedFile category selected.file })

/-- Embeds `clampVolume` from the hook script (rationals are always finite, so
the `Number.isFinite` guard cannot fire in the model). -/
def clampVolume (value : ℚ) : ℚ :=
  if value < 0 then 0 else if 1 < value then 1 else value

/-- Embeds `output.hookSpecificOutput`. -/
structure HookSpecificOutput where
  hookEventName : String
  permissionDecision : String
  permissionDecisionReason : String
  additionalContext : Option String
deriving DecidableEq, Repr

/-- The baseline decision set for every PreToolUse event. -/
def allowDecision : HookSpecificOutput :=
  { hookEventName := "PreToolUse"
    permissionDecision := "allow"
    permissionDecisionReason := "Default allow from peon-ping hook."
    additionalContext := none }

/-- The override installed when destructive patterns match. -/
def askDecision : HookSpecificOutput :=
  { hookEventName := "PreToolUse"
    permissionDecision := "ask"
    permissionDecisionReason := "Potentially destructive command detected by peon-ping policy."
    additionalContext := some "Review command intent before approving tool execution." }

/-- The decision record written to stdout. -/
structure Output where
  «continue» : Bool
  hookSpecificOutput : Option HookSpecificOutput
deriving DecidableEq, Repr

/-- Embeds `createOutput()`. -/
def createOutput : Output :=
  { «continue» := true, hookSpecificOutput := none }

/-- The hook input after JSON parsing; `none` fields are absent keys. -/
structure HookInput where
  hookEventName : Option String
  hook_event_name : Option String
  tool_input : Payload
  tool_response : Payload
deriving DecidableEq, Repr

/-- Embeds `String(hookInput.hookEventName || hookInput.hook_event_name || "")`. -/
def eventNameOf (input : HookInput) : String :=
  jsStrOr input.hookEventName (jsStrOr input.hook_event_name "")

/-- Observable side effects of one invocation, in program order. -/
inductive Action
  | playSound (path : String) (volume : ℚ)
  | ringBell
  | notify (title : String) (message : String)
  | writeState (s : State)
deriving DecidableEq, Repr

/-- The result of `getPackContext` (a file-system read, hence external). -/
structure PackContext where
  manifest : Manifest
  packDir : String
deriving Repr

/-- External collaborators of one invocation: the resolved pack context
and the outcome of `playSound` for a given path and volume (covering the
`fs.existsSync` check and the platform player probing). -/
structure Env where
  packContext : Option PackContext
  playSoundOk : String → ℚ → Bool

/-- The classification phase of `main` (lines 336–382 of the hook
script): the permission decision, the category, the extra message and
the state as mutated by `checkSpam`. -/
structure ClassifyResult where
  hso : Option HookSpecificOutput
  category : String
  extraMessage : String
  state : State
deriving Repr

def classifyStep (rex : String → Option (String → Bool)) (cfg : Config) (state : State)
    (input : HookInput) (now : ℚ) : ClassifyResult :=
  let eventName := eventNameOf input
  let baseHso : Option HookSpecificOutput :=
    if eventName = "PreToolUse" then some allowDecision else none
  if eventName = "SessionStart" then
    ⟨baseHso, "session.start", "", state⟩
  else if eventName = "UserPromptSubmit" then
    let r := checkSpam state cfg now
    ⟨baseHso, if r.1 then "user.spam" else "task.acknowledge", "", r.2⟩
  else if eventName = "Stop" then
    ⟨baseHso, "task.complete", "", state⟩
  else if eventName = "SubagentStart" then
    ⟨baseHso, "task.acknowledge", "", state⟩
  else if eventName = "SubagentStop" then
    ⟨baseHso, "task.complete", "", state⟩
  else if eventName = "PostToolUse" then
    if containsPattern rex input.tool_response rateLimitPatterns then
      ⟨baseHso, "resource.limit", "", state⟩
    else if containsPattern rex input.tool_response errorPatterns then
      ⟨baseHso, "task.error", "", state⟩
    else
      ⟨baseHso, "", "", state⟩
  else if eventName = "PreToolUse" then
    if containsPattern rex input.tool_input (dangerousPatterns cfg) then
      ⟨some askDecision, "input.required",
       "Potentially destructive tool input detected.", state⟩
    else
      ⟨baseHso, "", "", state⟩
  else
    ⟨baseHso, "", "", state⟩

/-- Result of the playback attempt inside the notification block. -/
structure SoundStep where
  played : Bool
  message : String
  state : State
  acts : List Action
deriving Repr

/-- The pack-resolution and playback part of the notification block
(lines 385–399): resolve the pack, pick a sound, attempt playback. -/
def soundPhase (cfg : Config) (env : Env) (category : String)
    (fallbackLabel : String) (state : State) (soundIdx : Nat) : SoundStep :=
  match env.packContext with
  | none => ⟨false, fallbackLabel, state, []⟩
  | some pc =>
    let ps := pickSound category pc.manifest state soundIdx
    match ps.1 with
    | none => ⟨false, fallbackLabel, ps.2, []⟩
    | some picked =>
      let fullSoundPath := joinPackPath pc.packDir picked.file
      ⟨env.playSoundOk fullSoundPath cfg.volume,
       if picked.label != "" then picked.label else fallbackLabel,
       ps.2,
       [Action.playSound fullSoundPath (clampVolume cfg.volume)]⟩

/-- The guarded notification block of `main` (lines 384–410): label pick,
sound pick and playback, bell fallback, desktop notification. -/
def notifyBlock (cfg : Config) (env : Env) (category extraMessage : String)
    (state : State) (labelIdx soundIdx : Nat) : State × List Action :=
  let fb := pickLabel category cfg state labelIdx
  let ss := soundPhase cfg env category fb.1 fb.2 soundIdx
  let bellActs : List Action := if !ss.played && cfg.bell then [Action.ringBell] else []
  let notifyActs : List Action :=
    if cfg.desktopNotifications then
      [Action.notify "Peon Ping"
        (if extraMessage != "" then ss.message ++ " " ++ extraMessage else ss.message)]
    else []
  (ss.state, ss.acts ++ bellActs ++ notifyActs)

/-- One invocation of the hook. -/
structure MainResult where
  output : Output
  finalState : State
  actions : List Action
deriving Repr

/-- The tail of `main`: gate the notification block on
`config.enabled && category && config.categories[category] !== false`,
then persist the state and emit the output. -/
def mainCore (cfg : Config) (env : Env) (c : ClassifyResult)
    (labelIdx soundIdx : Nat) : MainResult :=
  if cfg.enabled && (c.category != "") &&
      !(lookupBool cfg.categories c.category == some false) then
    { output := { «continue» := true, hookSpecificOutput := c.hso }
      finalState := (notifyBlock cfg env c.category c.extraMessage c.state labelIdx soundIdx).1
      actions := (notifyBlock cfg env c.category c.extraMessage c.state labelIdx soundIdx).2 ++
        [Action.writeState
          (notifyBlock cfg env c.category c.extraMessage c.state labelIdx soundIdx).1] }
  else
    { output := { «continue» := true, hookSpecificOutput := c.hso }
      finalState := c.state
      actions := [Action.writeState c.state] }

/-- Embeds `main()` of the hook script as a pure function of its inputs. -/
def main (rex : String → Option (String → Bool)) (cfg : Config) (state : State)
    (input : HookInput) (env : Env) (now : ℚ) (labelIdx soundIdx : Nat) : MainResult :=
  mainCore cfg env (classifyStep rex cfg state input now) labelIdx soundIdx

/-- The event names handled by the dispatch in `main`. -/
def knownEventNames : List String :=
  ["SessionStart", "UserPromptSubmit", "PreToolUse", "PostToolUse",
   "SubagentStart", "SubagentStop", "Stop"]

/-! Concrete instantiations used in closed example theorems. -/

/-- Regex oracle on which every pattern fails to compile. -/
def noRex : String → Option (String → Bool) := fun _ => none

/-- Is `needle` a prefix of `hay`? -/
def isPrefixChars : List Char → List Char → Bool
  | [], _ => true
  | _ :: _, [] => false
  | n :: ns, h :: hs => (n = h) && isPrefixChars ns hs

/-- Does `needle` occur as a contiguous substring of `hay`? -/
def containsChars (needle : List Char) : List Char → Bool
  | [] => needle.isEmpty
  | c :: rest => isPrefixChars needle (c :: rest) || containsChars needle rest

/-- A concrete regex-engine instantiation for closed examples: every
pattern compiles, and matches exactly when it occurs literally as a
substring of the value. -/
def litRex (pattern : String) : Option (String → Bool) :=
  some fun s => containsChars pattern.data s.data

/-- An oracle on which exactly the pattern `"bad"` fails to compile and
every other pattern matches everything. -/
def skipRex (p : String) : Option (String → Bool) :=
  if p = "bad" then none else some fun _ => true

def stEmpty : State := ⟨[], [], []⟩

def envNone : Env := ⟨none, fun _ _ => false⟩

def cfgBase : Config := ⟨true, false, true, 1/2, 3, 10, [], [], none⟩

def cfgDisabled : Config := { cfgBase with enabled := false }

/-- A label list holding two distinct labels, one of them empty. -/
def cfgLabelPair : Config := { cfgBase with labels := [("task.complete", ["x", ""])] }

def stLastX : State := ⟨[("task.complete", "x")], [], []⟩

def cfgLabelSingle : Config := { cfgBase with labels := [("task.complete", ["All set."])] }

def stSpam : State := ⟨[], [], [85, 95, 99]⟩

def inputUPS : HookInput := ⟨some "UserPromptSubmit", none, .absent, .absent⟩

def inputPost : HookInput := ⟨some "PostToolUse", none, .absent, .text "quota reached and error"⟩

def inputBogus : HookInput := ⟨some "Bogus", none, .absent, .absent⟩

def inputStop : HookInput := ⟨some "Stop", none, .absent, .absent⟩

/-- A pack with one valid sound for `task.complete`. -/
def packEnv : Env :=
  ⟨some ⟨⟨[("task.complete", [⟨some "sounds/a.wav", some "Job finished"⟩])]⟩, "packs/peon"⟩,
   fun _ _ => true⟩

/-! ## Helper lemmas -/

theorem dropLeadingSlashes_head_ne_slash (l : List Char) :
    (dropLeadingSlashes l).head? ≠ some '/' := by
  induction l with
  | nil => simp [dropLeadingSlashes]
  | cons c rest ih =>
    simp only [dropLeadingSlashes]
    split
    · exact ih
    · simp_all

/-- Every value accepted by the sanitizer is non-empty, does not start
with the two characters `".."`, and does not start with a slash. -/
theorem sanitizeRelativePath_shape {input out : String}
    (h : sanitizeRelativePath input = some out) :
    out ≠ "" ∧ out.data.take 2 ≠ ['.', '.'] ∧ out.data.head? ≠ some '/' := by
  simp only [sanitizeRelativePath] at h
  by_cases hc : dropLeadingSlashes (posixNormalize (jsSlashes input.data)) = [] ∨
      (dropLeadingSlashes (posixNormalize (jsSlashes input.data))).take 2 = ['.', '.']
  · rw [if_pos hc] at h
    exact absurd h (by simp)
  · rw [if_neg hc] at h
    push_neg at hc
    obtain ⟨h1, h2⟩ := hc
    have hout : out = String.mk (dropLeadingSlashes (posixNormalize (jsSlashes input.data))) :=
      (Option.some.inj h).symm
    subst hout
    refine ⟨?_, h2, dropLeadingSlashes_head_ne_slash _⟩
    intro hemp
    exact h1 (congrArg String.data hemp)

/-! ## C2: the path sanitizer -/

/-- C2 counterexample: contrary to the claim, the sanitizer does not
reject `"/etc/passwd"` — it strips the leading slash and accepts the
input, returning `"etc/passwd"` rather than absent. -/
theorem sanitizeRelativePath_accepts_absolute :
    sanitizeRelativePath "/etc/passwd" = some "etc/passwd" ∧
    sanitizeRelativePath "/etc/passwd" ≠ none := by
  constructor
  · decide
  · decide

/-- C2 (amended): the sanitizer rejects `"../../etc/passwd"`, accepts
`"sounds/a.wav"` unchanged, and accepts `"/etc/passwd"` by stripping its
leading slash (returning `"etc/passwd"`); in general every accepted
output is a non-empty path that neither starts with `".."` nor with a
slash. -/
theorem sanitizeRelativePath_check :
    sanitizeRelativePath "../../etc/passwd" = none ∧
    sanitizeRelativePath "sounds/a.wav" = some "sounds/a.wav" ∧
    sanitizeRelativePath "/etc/passwd" = some "etc/passwd" ∧
    ∀ input out, sanitizeRelativePath input = some out →
      out ≠ "" ∧ out.data.take 2 ≠ ['.', '.'] ∧ out.data.head? ≠ some '/' := by
  refine ⟨by decide, by decide, by decide, ?_⟩
  intro input out h
  exact sanitizeRelativePath_shape h

/-- Concrete instance of the universal part of the amended C2 theorem. -/
theorem sanitizeRelativePath_check_witness :
    ("sounds/a.wav" : String) ≠ "" ∧
    ("sounds/a.wav" : String).data.take 2 ≠ ['.', '.'] ∧
    ("sounds/a.wav" : String).data.head? ≠ some '/' :=
  sanitizeRelativePath_check.2.2.2 "sounds/a.wav" "sounds/a.wav" (by decide)

/-! ## C8: robustness of the pattern matcher -/

/-- C8: the matcher yields false for an absent or empty value; a pattern
list on which every pattern fails to compile yields false; a pattern
that fails to compile is skipped without affecting the remaining
patterns; and an invalid pattern followed by a matching valid one yields
true. -/
theorem containsPattern_robust :
    (∀ rex patterns, containsPattern rex Payload.absent patterns = false) ∧
    (∀ rex patterns, containsPattern rex (Payload.text "") patterns = false) ∧
    (∀ rex value patterns, (∀ p ∈ patterns, rex p = none) →
      containsPattern rex value patterns = false) ∧
    (∀ rex value bad rest, rex bad = none →
      containsPattern rex value (bad :: rest) = containsPattern rex value rest) ∧
    (∀ rex value bad good test, rex bad = none → rex good = some test →
      test value.joined = true → value.falsy = false →
      containsPattern rex value [bad, good] = true) := by
  refine ⟨fun rex patterns => rfl, fun rex patterns => rfl, ?_, ?_, ?_⟩
  · intro rex value patterns h
    unfold containsPattern
    split
    · rfl
    · rw [List.any_eq_false]
      intro p hp
      simp [h p hp]
  · intro rex value bad rest h
    unfold containsPattern
    split
    · rfl
    · rw [List.any_cons, h]
      rfl
  · intro rex value bad good test hbad hgood htest hval
    unfold containsPattern
    rw [if_neg (by rw [hval]; exact Bool.false_ne_true)]
    rw [List.any_cons, List.any_cons, hbad, hgood]
    simp [htest]

/-- Concrete instance of C8: the invalid pattern `"bad"` is skipped and
the following matching pattern still fires. -/
theorem containsPattern_robust_witness :
    containsPattern skipRex (Payload.text "x") ["bad", "good"] = true :=
  containsPattern_robust.2.2.2.2 skipRex (Payload.text "x") "bad" "good"
    (fun _ => true) rfl rfl rfl rfl

/-! ## C3: the anti-repeat selectors -/

/-- If two distinct values are members of a list it has at least two
elements. -/
theorem one_lt_length_of_two_mem {α : Type} {l : List α} {a b : α}
    (ha : a ∈ l) (hb : b ∈ l) (hab : a ≠ b) : 1 < l.length := by
  match l with
  | [] => simp at ha
  | [x] => simp_all
  | x :: y :: rest => simp [List.length_cons]

/-- The head of a non-empty list is a member. -/
theorem headI_mem_of_ne_nil {α : Type} [Inhabited α] {l : List α} (h : l ≠ []) :
    l.headI ∈ l := by
  match l with
  | [] => exact absurd rfl h
  | x :: rest => simp [List.headI]

/-- C3 counterexample: `pickLabel` can repeat the previous pick even
though the configured list holds two distinct labels.  With labels
`["x", ""]` and last pick `"x"`, the only candidate left is `""`, which
is falsy in JS, so `candidates[i] || labels[0]` falls back to `"x"` —
the value just played. -/
theorem pickLabel_repeats_on_empty_label :
    labelsFor cfgLabelPair "task.complete" = ["x", ""] ∧
    jsGetStr stLastX.lastPlayedLabel "task.complete" = "x" ∧
    (pickLabel "task.complete" cfgLabelPair stLastX 0).1 = "x" := by
  refine ⟨by decide, by decide, by decide⟩

/-- C3 (amended): both selectors return the single element of a
one-element candidate pool for every draw; `pickSound` never repeats the
last file when at least two distinct files are candidates; and
`pickLabel` never repeats the last label when at least two distinct
labels are configured, provided no configured label is the empty string
(an empty-string label can defeat the guarantee through the JS falsy
fallback, as the counterexample shows). -/
theorem antiRepeat_selector :
    (∀ category cfg st idx l, labelsFor cfg category = [l] →
      (pickLabel category cfg st idx).1 = l) ∧
    (∀ category m st idx e, soundCandidates m category = [e] →
      (pickSound category m st idx).1 = some e) ∧
    (∀ category cfg st idx a b, a ∈ labelsFor cfg category → b ∈ labelsFor cfg category →
      a ≠ b → ("" : String) ∉ labelsFor cfg category →
      idx < ((labelsFor cfg category).filter
        (fun l => l != jsGetStr st.lastPlayedLabel category)).length →
      (pickLabel category cfg st idx).1 ≠ jsGetStr st.lastPlayedLabel category) ∧
    (∀ category m st idx a b, a ∈ soundCandidates m category → b ∈ soundCandidates m category →
      a.file ≠ b.file →
      idx < ((soundCandidates m category).filter
        (fun e => e.file != jsGetStr st.lastPlayedFile category)).length →
      ∀ sel, (pickSound category m st idx).1 = some sel →
        sel.file ≠ jsGetStr st.lastPlayedFile category) := by
  refine ⟨?_, ?_, ?_, ?_⟩
  · intro category cfg st idx l h
    simp only [pickLabel, h]
    match idx with
    | 0 => simp [jsStrOr]
    | n + 1 => simp [jsStrOr]
  · intro category m st idx e h
    simp only [pickSound, h]
    match idx with
    | 0 => simp
    | n + 1 => simp
  · intro category cfg st idx a b ha hb hab hne hidx
    have hlen : 1 < (labelsFor cfg category).length :=
      one_lt_length_of_two_mem ha hb hab
    simp only [pickLabel]
    rw [if_neg (by omega), if_neg (by omega), List.get?_eq_get hidx]
    have hmem := List.get_mem ((labelsFor cfg category).filter
      (fun l => l != jsGetStr st.lastPlayedLabel category)) idx hidx
    have hf := List.mem_filter.mp hmem
    have hcand_ne : ((labelsFor cfg category).filter
        (fun l => l != jsGetStr st.lastPlayedLabel category)).get ⟨idx, hidx⟩ ≠ "" := by
      intro hcontr
      exact hne (hcontr ▸ hf.1)
    show jsStrOr (some _) _ ≠ _
    simp only [jsStrOr, if_neg hcand_ne]
    simpa using hf.2
  · intro category m st idx a b ha hb hab hidx sel hsel
    have hab2 : a ≠ b := fun h => hab (congrArg SelSound.file h)
    have hlen : 1 < (soundCandidates m category).length :=
      one_lt_length_of_two_mem ha hb hab2
    simp only [pickSound] at hsel
    rw [if_neg (by omega), if_neg (by omega), List.get?_eq_get hidx] at hsel
    have hmem := List.get_mem ((soundCandidates m category).filter
      (fun e => e.file != jsGetStr st.lastPlayedFile category)) idx hidx
    have hf := List.mem_filter.mp hmem
    have hsel2 : sel = ((soundCandidates m category).filter
        (fun e => e.file != jsGetStr st.lastPlayedFile category)).get ⟨idx, hidx⟩ := by
      have hpair : some (((soundCandidates m category).filter
          (fun e => e.file != jsGetStr st.lastPlayedFile category)).get ⟨idx, hidx⟩) =
          some sel := by
        simpa using hsel
      exact (Option.some.inj hpair).symm
    subst hsel2
    simpa using hf.2

/-- Concrete instance of the single-candidate part of the amended C3
theorem. -/
theorem antiRepeat_selector_witness :
    (pickLabel "task.complete" cfgLabelSingle stEmpty 0).1 = "All set." :=
  antiRepeat_selector.1 "task.complete" cfgLabelSingle stEmpty 0 "All set." (by decide)

/-! ## Classifier and orchestrator lemmas -/

/-- Lemma: `mainCore` always emits `continue: true` with the classifier's
permission decision, in both branches of the gate. -/
theorem mainCore_output (cfg : Config) (env : Env) (c : ClassifyResult)
    (labelIdx soundIdx : Nat) :
    (mainCore cfg env c labelIdx soundIdx).output =
      { «continue» := true, hookSpecificOutput := c.hso } := by
  unfold mainCore
  split <;> rfl

/-- The permission decision computed by the classification phase. -/
theorem classifyStep_hso (rex : String → Option (String → Bool)) (cfg : Config)
    (state : State) (input : HookInput) (now : ℚ) :
    (classifyStep rex cfg state input now).hso =
      if eventNameOf input = "PreToolUse" then
        some (if containsPattern rex input.tool_input (dangerousPatterns cfg) then askDecision
              else allowDecision)
      else none := by
  unfold classifyStep
  by_cases h : eventNameOf input = "PreToolUse"
  · simp only [h]
    rw [if_neg (by decide : ¬("PreToolUse" : String) = "SessionStart"),
        if_neg (by decide : ¬("PreToolUse" : String) = "UserPromptSubmit"),
        if_neg (by decide : ¬("PreToolUse" : String) = "Stop"),
        if_neg (by decide : ¬("PreToolUse" : String) = "SubagentStart"),
        if_neg (by decide : ¬("PreToolUse" : String) = "SubagentStop"),
        if_neg (by decide : ¬("PreToolUse" : String) = "PostToolUse")]
    split_ifs <;> simp_all
  · simp only [if_neg h]
    split_ifs <;> rfl

/-! ## C1: the permission decision -/

/-- C1: the decision output carries a permission decision iff the event
is PreToolUse: the baseline `allow` decision with its fixed reason,
overridden to `ask` (fixed reason and additional-context strings)
exactly when the tool input matches the destructive-command patterns
(the configured list, or the built-in default list when the configured
value is not an array); every other event name yields no decision. -/
theorem main_permission_decision (rex : String → Option (String → Bool)) (cfg : Config)
    (state : State) (input : HookInput) (env : Env) (now : ℚ) (labelIdx soundIdx : Nat) :
    (main rex cfg state input env now labelIdx soundIdx).output.hookSpecificOutput =
      if eventNameOf input = "PreToolUse" then
        some (if containsPattern rex input.tool_input (dangerousPatterns cfg) then askDecision
              else allowDecision)
      else none := by
  show (mainCore cfg env (classifyStep rex cfg state input now)
      labelIdx soundIdx).output.hookSpecificOutput = _
  rw [mainCore_output]
  exact classifyStep_hso rex cfg state input now

/-! ## C7: PostToolUse classification priority -/

/-- C7: a PostToolUse event is classified `resource.limit` when the tool
response matches the rate/quota patterns — taking priority over the
generic error patterns — else `task.error` when it matches the error
patterns, else no category. -/
theorem postToolUse_category (rex : String → Option (String → Bool)) (cfg : Config)
    (state : State) (input : HookInput) (now : ℚ)
    (h : eventNameOf input = "PostToolUse") :
    (classifyStep rex cfg state input now).category =
      if containsPattern rex input.tool_response rateLimitPatterns then "resource.limit"
      else if containsPattern rex input.tool_response errorPatterns then "task.error"
      else "" := by
  unfold classifyStep
  simp only [h]
  rw [if_neg (by decide : ¬("PostToolUse" : String) = "SessionStart"),
      if_neg (by decide : ¬("PostToolUse" : String) = "UserPromptSubmit"),
      if_neg (by decide : ¬("PostToolUse" : String) = "Stop"),
      if_neg (by decide : ¬("PostToolUse" : String) = "SubagentStart"),
      if_neg (by decide : ¬("PostToolUse" : String) = "SubagentStop"), if_true]
  split_ifs <;> rfl

/-- Concrete instance of C7: a response matching both the quota pattern
and the error pattern is classified `resource.limit`. -/
theorem postToolUse_category_witness :
    (classifyStep litRex cfgBase stEmpty inputPost 0).category = "resource.limit" := by
  rw [postToolUse_category litRex cfgBase stEmpty inputPost 0 (by decide)]
  decide

/-! ## C9: unrecognized event names -/

/-- C9: for an event name outside the known set (including a missing or
empty name) classification yields no category and no permission
decision, no notification side effect fires, and the output is exactly
`{continue: true}`. -/
theorem unknown_event_noop (rex : String → Option (String → Bool)) (cfg : Config)
    (state : State) (input : HookInput) (env : Env) (now : ℚ) (labelIdx soundIdx : Nat)
    (h : eventNameOf input ∉ knownEventNames) :
    (classifyStep rex cfg state input now).category = "" ∧
    (classifyStep rex cfg state input now).hso = none ∧
    (main rex cfg state input env now labelIdx soundIdx).output = createOutput ∧
    (main rex cfg state input env now labelIdx soundIdx).finalState = state ∧
    (main rex cfg state input env now labelIdx soundIdx).actions =
      [Action.writeState state] := by
  simp only [knownEventNames, List.mem_cons, List.not_mem_nil, or_false, not_or] at h
  obtain ⟨h1, h2, h3, h4, h5, h6, h7⟩ := h
  have hcs : classifyStep rex cfg state input now = ⟨none, "", "", state⟩ := by
    unfold classifyStep
    simp only [if_neg h1, if_neg h2, if_neg h3, if_neg h4, if_neg h5, if_neg h6, if_neg h7]
  have hm : main rex cfg state input env now labelIdx soundIdx =
      { output := createOutput, finalState := state,
        actions := [Action.writeState state] } := by
    unfold main
    rw [hcs]
    unfold mainCore
    simp [createOutput]
  exact ⟨by rw [hcs], by rw [hcs], by rw [hm], by rw [hm], by rw [hm]⟩

/-- Concrete instance of C9 at the unrecognized event name `"Bogus"`. -/
theorem unknown_event_noop_witness :
    (classifyStep noRex cfgBase stEmpty inputBogus 0).category = "" ∧
    (classifyStep noRex cfgBase stEmpty inputBogus 0).hso = none ∧
    (main noRex cfgBase stEmpty inputBogus envNone 0 0 0).output = createOutput ∧
    (main noRex cfgBase stEmpty inputBogus envNone 0 0 0).finalState = stEmpty ∧
    (main noRex cfgBase stEmpty inputBogus envNone 0 0 0).actions =
      [Action.writeState stEmpty] :=
  unknown_event_noop noRex cfgBase stEmpty inputBogus envNone 0 0 0 (by decide)

/-! ## C6: the spam check -/

/-- C6: the spam check appends the current timestamp, retains exactly
the previous timestamps at or after `now - spamWindowSeconds` (inclusive
lower edge), and reports true iff the retained count including the new
timestamp reaches `spamThreshold`; a UserPromptSubmit event is
classified `user.spam` exactly when the check reports true and
`task.acknowledge` otherwise.  (The hypotheses exclude the zero values,
on which the JS falsy-default `|| 10` / `|| 3` substitutes the default
window and threshold.) -/
theorem checkSpam_spec (rex : String → Option (String → Bool)) (cfg : Config)
    (state : State) (input : HookInput) (now : ℚ)
    (hw : cfg.spamWindowSeconds ≠ 0) (ht : cfg.spamThreshold ≠ 0) :
    (checkSpam state cfg now).2.promptTimestamps =
      (state.promptTimestamps.filter fun stamp => now - cfg.spamWindowSeconds ≤ stamp)
        ++ [now] ∧
    ((checkSpam state cfg now).1 = true ↔
      cfg.spamThreshold ≤
        ((((state.promptTimestamps.filter fun stamp => now - cfg.spamWindowSeconds ≤ stamp)
          ++ [now]).length : ℕ) : ℚ)) ∧
    (checkSpam state cfg now).2.lastPlayedLabel = state.lastPlayedLabel ∧
    (checkSpam state cfg now).2.lastPlayedFile = state.lastPlayedFile ∧
    (eventNameOf input = "UserPromptSubmit" →
      (classifyStep rex cfg state input now).category =
        (if (checkSpam state cfg now).1 then "user.spam" else "task.acknowledge")) := by
  have hcs : checkSpam state cfg now =
      (decide (cfg.spamThreshold ≤
        ((((state.promptTimestamps.filter fun stamp => now - cfg.spamWindowSeconds ≤ stamp)
          ++ [now]).length : ℕ) : ℚ)),
       { state with promptTimestamps :=
          (state.promptTimestamps.filter fun stamp => now - cfg.spamWindowSeconds ≤ stamp)
            ++ [now] }) := by
    unfold checkSpam
    simp only [jsNumOr, if_neg hw, if_neg ht]
  refine ⟨by rw [hcs], ?_, by rw [hcs], by rw [hcs], ?_⟩
  · rw [hcs]
    simp [decide_eq_true_eq]
  · intro h
    unfold classifyStep
    simp only [h]
    rw [if_neg (by decide : ¬("UserPromptSubmit" : String) = "SessionStart"), if_true]

/-- Concrete instance of C6: three prompts inside a 10-second window
reach the default threshold of 3 and classify as `user.spam`. -/
theorem checkSpam_spec_witness :
    (checkSpam stSpam cfgBase 100).2.promptTimestamps =
      ((stSpam.promptTimestamps.filter
        fun stamp => (100 : ℚ) - cfgBase.spamWindowSeconds ≤ stamp) ++ [100]) ∧
    (classifyStep noRex cfgBase stSpam inputUPS 100).category =
      (if (checkSpam stSpam cfgBase 100).1 then "user.spam" else "task.acknowledge") := by
  obtain ⟨h1, h2, h3, h4, h5⟩ :=
    checkSpam_spec noRex cfgBase stSpam inputUPS 100 (by decide) (by decide)
  exact ⟨h1, h5 (by decide)⟩

/-! ## C4: skipping side effects -/

/-- C4: when the master switch is off, or no category was classified, or
the category is explicitly disabled, no playback, bell or notification
action is emitted — the only action is the state write — yet the mutated
state is persisted and the computed permission decision is still in the
output. -/
theorem main_skips_side_effects (rex : String → Option (String → Bool)) (cfg : Config)
    (state : State) (input : HookInput) (env : Env) (now : ℚ) (labelIdx soundIdx : Nat)
    (h : cfg.enabled = false ∨ (classifyStep rex cfg state input now).category = "" ∨
      lookupBool cfg.categories (classifyStep rex cfg state input now).category = some false) :
    (main rex cfg state input env now labelIdx soundIdx).actions =
      [Action.writeState (classifyStep rex cfg state input now).state] ∧
    (main rex cfg state input env now labelIdx soundIdx).finalState =
      (classifyStep rex cfg state input now).state ∧
    (main rex cfg state input env now labelIdx soundIdx).output.hookSpecificOutput =
      (classifyStep rex cfg state input now).hso := by
  have hg : (cfg.enabled && ((classifyStep rex cfg state input now).category != "") &&
      !(lookupBool cfg.categories (classifyStep rex cfg state input now).category
        == some false)) = false := by
    rcases h with h | h | h <;> simp [h]
  unfold main mainCore
  rw [hg]
  simp

/-- Concrete instance of C4 with the master switch disabled. -/
theorem main_skips_side_effects_witness :
    (main noRex cfgDisabled stEmpty inputStop envNone 0 0 0).actions =
      [Action.writeState (classifyStep noRex cfgDisabled stEmpty inputStop 0).state] ∧
    (main noRex cfgDisabled stEmpty inputStop envNone 0 0 0).finalState =
      (classifyStep noRex cfgDisabled stEmpty inputStop 0).state ∧
    (main noRex cfgDisabled stEmpty inputStop envNone 0 0 0).output.hookSpecificOutput =
      (classifyStep noRex cfgDisabled stEmpty inputStop 0).hso :=
  main_skips_side_effects noRex cfgDisabled stEmpty inputStop envNone 0 0 0 (Or.inl rfl)

/-! ## C5: the invocation always responds and always persists -/

/-- C5: for every input — any event payload, a missing pack directory
(`env.packContext = none`), arbitrary configuration and state (covering
the read-repair defaults), and failing side effects — the invocation
emits an output with `continue: true` and writes the updated state. -/
theorem main_always_responds (rex : String → Option (String → Bool)) (cfg : Config)
    (state : State) (input : HookInput) (env : Env) (now : ℚ) (labelIdx soundIdx : Nat) :
    (main rex cfg state input env now labelIdx soundIdx).output.«continue» = true ∧
    Action.writeState (main rex cfg state input env now labelIdx soundIdx).finalState ∈
      (main rex cfg state input env now labelIdx soundIdx).actions := by
  unfold main mainCore
  split
  · exact ⟨rfl, by simp⟩
  · exact ⟨rfl, by simp⟩

/-! ## C10: only sanitized paths are recorded and played -/

theorem find?_filter_ne (m : StrMap) (k k2 : String) (h : ¬ k2 = k) :
    ((m.filter fun p => p.1 != k).find? fun p => p.1 == k2) =
      m.find? fun p => p.1 == k2 := by
  induction m with
  | nil => rfl
  | cons a rest ih =>
    rw [List.filter_cons]
    by_cases ha : a.1 = k
    · rw [if_neg (by simp [ha])]
      rw [List.find?_cons_of_neg _ (by simp only [ha, beq_iff_eq]; exact fun hh => h hh.symm)]
      exact ih
    · rw [if_pos (by simp [ha])]
      by_cases hk : a.1 = k2
      · rw [List.find?_cons_of_pos _ (by simp [hk]),
          List.find?_cons_of_pos _ (by simp [hk])]
      · rw [List.find?_cons_of_neg _ (by simp [hk]),
          List.find?_cons_of_neg _ (by simp [hk])]
        exact ih

/-- Lookup after a JS property assignment. -/
theorem lookupStr_setStr (m : StrMap) (k v k2 : String) :
    lookupStr (setStr m k v) k2 = if k2 = k then some v else lookupStr m k2 := by
  unfold lookupStr setStr
  by_cases h : k2 = k
  · rw [if_pos h]
    subst h
    rw [List.find?_cons_of_pos _ (by simp)]
    rfl
  · rw [if_neg h]
    rw [List.find?_cons_of_neg _ (by simp only [beq_iff_eq]; exact fun hh => h hh.symm)]
    rw [find?_filter_ne m k k2 h]

/-- What `pickSound` can do to the state: either no candidate exists and
the state is untouched, or some sanitized candidate is selected and its
file recorded. -/
theorem pickSound_cases (category : String) (m : Manifest) (st : State) (idx : Nat) :
    ((pickSound category m st idx).1 = none ∧ (pickSound category m st idx).2 = st) ∨
    (∃ sel, (pickSound category m st idx).1 = some sel ∧
      sel ∈ soundCandidates m category ∧
      (pickSound category m st idx).2 =
        { st with lastPlayedFile := setStr st.lastPlayedFile category sel.file }) := by
  simp only [pickSound]
  split
  · exact Or.inl ⟨rfl, rfl⟩
  · rename_i hne
    right
    refine ⟨_, rfl, ?_, rfl⟩
    have hcand_ne : soundCandidates m category ≠ [] := by
      intro hx
      exact hne (by simp [hx])
    have hpool_sub : ∀ e, e ∈ (if (soundCandidates m category).length ≤ 1
        then soundCandidates m category
        else (soundCandidates m category).filter
          fun entry => entry.file != jsGetStr st.lastPlayedFile category) →
        e ∈ soundCandidates m category := by
      intro e he
      split at he
      · exact he
      · exact (List.mem_filter.mp he).1
    cases hx : (if (soundCandidates m category).length ≤ 1
        then soundCandidates m category
        else (soundCandidates m category).filter
          fun entry => entry.file != jsGetStr st.lastPlayedFile category).get? idx with
    | none =>
      simp only [Option.getD_none]
      exact headI_mem_of_ne_nil hcand_ne
    | some e =>
      simp only [Option.getD_some]
      obtain ⟨hlt, hget⟩ := List.get?_eq_some.mp hx
      exact hpool_sub e (hget ▸ List.get_mem _ idx hlt)

/-- Lemma: `pickLabel` never touches the played-file map or the timestamps. -/
theorem pickLabel_state_other (category : String) (cfg : Config) (st : State) (idx : Nat) :
    (pickLabel category cfg st idx).2.lastPlayedFile = st.lastPlayedFile ∧
    (pickLabel category cfg st idx).2.promptTimestamps = st.promptTimestamps := by
  constructor <;> (simp only [pickLabel]; split <;> rfl)

/-- Lemma: `checkSpam` only touches the timestamps. -/
theorem checkSpam_state_other (state : State) (cfg : Config) (now : ℚ) :
    (checkSpam state cfg now).2.lastPlayedFile = state.lastPlayedFile ∧
    (checkSpam state cfg now).2.lastPlayedLabel = state.lastPlayedLabel := by
  exact ⟨rfl, rfl⟩

/-- The classification phase never touches the played-file map. -/
theorem classifyStep_state_lastPlayedFile (rex : String → Option (String → Bool))
    (cfg : Config) (state : State) (input : HookInput) (now : ℚ) :
    (classifyStep rex cfg state input now).state.lastPlayedFile = state.lastPlayedFile := by
  simp only [classifyStep]
  split_ifs <;> rfl

/-- Every sanitized candidate traces back to a manifest sound entry with
a string file field accepted by the sanitizer. -/
theorem soundCandidates_mem {m : Manifest} {category : String} {e : SelSound}
    (he : e ∈ soundCandidates m category) :
    ∃ s ∈ manifestSounds m category, ∃ raw, s.file = some raw ∧
      sanitizeRelativePath raw = some e.file := by
  unfold soundCandidates at he
  rw [List.mem_filterMap] at he
  obtain ⟨s, hs, hf⟩ := he
  refine ⟨s, hs, ?_⟩
  unfold sanitizeSound at hf
  split at hf
  · exact absurd hf (by simp)
  · rename_i f hsf
    split at hf
    · exact absurd hf (by simp)
    · rename_i rel hsr
      have hrec := Option.some.inj hf
      refine ⟨f, hsf, ?_⟩
      rw [hsr]
      exact congrArg some (congrArg SelSound.file hrec)

/-- Membership in a conditional singleton. -/
theorem eq_of_mem_ite_single {α : Type} {a x : α} {c : Prop} [Decidable c]
    (h : a ∈ if c then [x] else []) : a = x := by
  split at h
  · simpa using h
  · simp at h

/-- What the notification block can do to the played-file map. -/
theorem notifyBlock_lastPlayedFile (cfg : Config) (env : Env) (category em : String)
    (st : State) (labelIdx soundIdx : Nat) :
    (notifyBlock cfg env category em st labelIdx soundIdx).1.lastPlayedFile =
      st.lastPlayedFile ∨
    ∃ pc sel, env.packContext = some pc ∧ sel ∈ soundCandidates pc.manifest category ∧
      (notifyBlock cfg env category em st labelIdx soundIdx).1.lastPlayedFile =
        setStr st.lastPlayedFile category sel.file := by
  rcases hpc : env.packContext with _ | pc
  · left
    simp only [notifyBlock, soundPhase, hpc]
    exact (pickLabel_state_other category cfg st labelIdx).1
  · rcases pickSound_cases category pc.manifest (pickLabel category cfg st labelIdx).2
        soundIdx with ⟨h1, h2⟩ | ⟨sel, h1, hmem, h2⟩
    · left
      simp only [notifyBlock, soundPhase, hpc, h1]
      rw [h2]
      exact (pickLabel_state_other category cfg st labelIdx).1
    · right
      refine ⟨pc, sel, rfl, hmem, ?_⟩
      simp only [notifyBlock, soundPhase, hpc, h1]
      rw [h2]
      show setStr (pickLabel category cfg st labelIdx).2.lastPlayedFile category sel.file = _
      rw [(pickLabel_state_other category cfg st labelIdx).1]

/-- Every playback action emitted by the notification block plays the
pack directory joined with a sanitized candidate's file, at the clamped
configured volume. -/
theorem notifyBlock_playSound (cfg : Config) (env : Env) (category em : String)
    (st : State) (labelIdx soundIdx : Nat) (p : String) (vol : ℚ)
    (h : Action.playSound p vol ∈ (notifyBlock cfg env category em st labelIdx soundIdx).2) :
    ∃ pc sel, env.packContext = some pc ∧ sel ∈ soundCandidates pc.manifest category ∧
      p = joinPackPath pc.packDir sel.file ∧ vol = clampVolume cfg.volume := by
  rcases hpc : env.packContext with _ | pc
  · exfalso
    simp only [notifyBlock, soundPhase, hpc, List.nil_append, List.mem_append] at h
    rcases h with h | h
    · exact absurd (eq_of_mem_ite_single h) (by simp)
    · exact absurd (eq_of_mem_ite_single h) (by simp)
  · rcases pickSound_cases category pc.manifest (pickLabel category cfg st labelIdx).2
        soundIdx with ⟨h1, h2⟩ | ⟨sel, h1, hmem, h2⟩
    · exfalso
      simp only [notifyBlock, soundPhase, hpc, h1, List.nil_append, List.mem_append] at h
      rcases h with h | h
      · exact absurd (eq_of_mem_ite_single h) (by simp)
      · exact absurd (eq_of_mem_ite_single h) (by simp)
    · refine ⟨pc, sel, rfl, hmem, ?_⟩
      simp only [notifyBlock, soundPhase, hpc, h1, List.cons_append, List.nil_append,
        List.mem_cons, List.mem_append] at h
      rcases h with h | h | h
      · injection h with hp hv
        exact ⟨hp, hv⟩
      · exact absurd (eq_of_mem_ite_single h) (by simp)
      · exact absurd (eq_of_mem_ite_single h) (by simp)

/-- C10: every value written into `state.lastPlayedFile` is the file of
a sanitized sound candidate — a non-empty path with no leading `".."`
and no leading slash, obtained from a manifest entry with a string file
field accepted by the sanitizer — and every playback action plays the
pack directory joined with such a file at the clamped configured volume;
entries with a missing, non-string or unsanitizable file are never
recorded or played. -/
theorem lastPlayedFile_invariant (rex : String → Option (String → Bool)) (cfg : Config)
    (state : State) (input : HookInput) (env : Env) (now : ℚ) (labelIdx soundIdx : Nat) :
    (∀ k v,
      lookupStr
        (main rex cfg state input env now labelIdx soundIdx).finalState.lastPlayedFile k =
        some v →
      lookupStr state.lastPlayedFile k = some v ∨
      (∃ pc, env.packContext = some pc ∧
        (∃ sel ∈ soundCandidates pc.manifest k, sel.file = v) ∧
        (∃ s ∈ manifestSounds pc.manifest k, ∃ raw, s.file = some raw ∧
          sanitizeRelativePath raw = some v) ∧
        v ≠ "" ∧ v.data.take 2 ≠ ['.', '.'] ∧ v.data.head? ≠ some '/')) ∧
    (∀ p vol, Action.playSound p vol ∈
        (main rex cfg state input env now labelIdx soundIdx).actions →
      ∃ pc sel, env.packContext = some pc ∧
        sel ∈ soundCandidates pc.manifest (classifyStep rex cfg state input now).category ∧
        p = joinPackPath pc.packDir sel.file ∧ vol = clampVolume cfg.volume) := by
  constructor
  · intro k v hv
    unfold main mainCore at hv
    split at hv
    · rcases notifyBlock_lastPlayedFile cfg env
          (classifyStep rex cfg state input now).category
          (classifyStep rex cfg state input now).extraMessage
          (classifyStep rex cfg state input now).state labelIdx soundIdx with
        hnb | ⟨pc, sel, hpc, hmem, hnb⟩
      · left
        rw [← classifyStep_state_lastPlayedFile rex cfg state input now, ← hnb]
        exact hv
      · rw [hnb, classifyStep_state_lastPlayedFile rex cfg state input now,
          lookupStr_setStr] at hv
        split at hv
        · right
          rename_i hk
          have hval : v = sel.file := (Option.some.inj hv).symm
          subst hval
          subst hk
          obtain ⟨hne, htake, hhead⟩ := sanitizeRelativePath_shape
            (soundCandidates_mem hmem).choose_spec.2.choose_spec.2
          exact ⟨pc, hpc, ⟨sel, hmem, rfl⟩, soundCandidates_mem hmem,
            hne, htake, hhead⟩
        · exact Or.inl hv
    · left
      rw [← classifyStep_state_lastPlayedFile rex cfg state input now]
      exact hv
  · intro p vol h
    unfold main mainCore at h
    split at h
    · rw [List.mem_append] at h
      rcases h with h | h
      · exact notifyBlock_playSound cfg env _ _ _ labelIdx soundIdx p vol h
      · simp at h
    · simp at h

/-- Concrete instance of C10: after a Stop event with a one-sound pack,
the recorded file is the sanitized candidate `"sounds/a.wav"`. -/
theorem lastPlayedFile_invariant_witness :
    lookupStr stEmpty.lastPlayedFile "task.complete" = some "sounds/a.wav" ∨
    (∃ pc, packEnv.packContext = some pc ∧
      (∃ sel ∈ soundCandidates pc.manifest "task.complete", sel.file = "sounds/a.wav") ∧
      (∃ s ∈ manifestSounds pc.manifest "task.complete", ∃ raw, s.file = some raw ∧
        sanitizeRelativePath raw = some "sounds/a.wav") ∧
      ("sounds/a.wav" : String) ≠ "" ∧
      ("sounds/a.wav" : String).data.take 2 ≠ ['.', '.'] ∧
      ("sounds/a.wav" : String).data.head? ≠ some '/') :=
  (lastPlayedFile_invariant noRex cfgBase stEmpty inputStop packEnv 0 0 0).1
    "task.complete" "sounds/a.wav" (by decide)

end PeonPing
